import Mathlib

/-!
Verification of the fava-currency-tracker frontend against its specification.

The TypeScript sources are shallowly embedded: pure functions become Lean
functions, the React reducer becomes a function on an explicit state type,
URLSearchParams becomes an association list with the set/get semantics of the
web API, and async handlers become functions returning the list of network
calls they issue together with the list of actions they dispatch, with the
network outcome passed in as an explicit `Except` argument.

Calendar dates are modelled as serial day numbers (`Nat`): one number per
calendar date, consecutive dates differing by one, and the numeric order
agreeing with the lexicographic order of the ISO `YYYY-MM-DD` strings the
code manipulates.
-/

/-! ## URLSearchParams model (used by src/frontend/src/api/*.ts) -/

/-- A `URLSearchParams` value: an ordered list of key/value pairs. -/
abbrev Params : Type := List (String × String)

/-- `URLSearchParams.set k v`: replace the value of the first pair whose key
is `k` and delete every later pair with that key; append at the end when the
key is absent. -/
def setParam : Params → String → String → Params
  | [], k, v => [(k, v)]
  | (k0, v0) :: rest, k, v =>
    if k0 = k then (k, v) :: rest.filter (fun p => p.1 ≠ k)
    else (k0, v0) :: setParam rest k v

/-- `URLSearchParams.get k`: the value of the first pair whose key is `k`. -/
def getParam (ps : Params) (k : String) : Option String :=
  (ps.find? (fun p => p.1 = k)).map (fun p => p.2)

/-- Number of pairs of a `Params` carrying the key `k`. -/
def countKey (ps : Params) (k : String) : Nat :=
  (ps.filter (fun p => p.1 = k)).length

/-- `URLSearchParams.toString`, without percent-encoding (the claims never
depend on the encoding of individual characters). -/
def paramsToString (ps : Params) : String :=
  String.intercalate "&" (ps.map (fun p => p.1 ++ "=" ++ p.2))

/-- JavaScript string truthiness: a string is truthy iff it is non-empty. -/
def truthy (s : String) : Bool := !s.isEmpty

/-- Truthiness of a `string | undefined` value. -/
def otruthy : Option String → Bool
  | none => false
  | some s => truthy s

/-! ## API envelope (src/frontend/src/api/api.ts) -/

/-- The response envelope shared by every endpoint. -/
structure APIResponse (T : Type) where
  success : Bool
  error : Option String
  data : T

/-- `Response.ok`: the HTTP status is in the 2xx range. -/
def respOk (status : Nat) : Bool := 200 ≤ status && status < 300

/-- `fetchJSON` from api.ts, applied to a response with the given HTTP status
and decoded JSON envelope: throw unless the response is 2xx and the envelope
reports success, with the envelope error string (fallback "API error") as the
thrown message. -/
def fetchJSON {T : Type} (status : Nat) (json : APIResponse T) : Except String T :=
  if !respOk status || !json.success then
    Except.error (json.error.getD "API error")
  else
    Except.ok json.data

/-- `postJSON` from api.ts: identical response handling to `fetchJSON`. -/
def postJSON {T : Type} (status : Nat) (json : APIResponse T) : Except String T :=
  if !respOk status || !json.success then
    Except.error (json.error.getD "API error")
  else
    Except.ok json.data

/-! ## PricesFetcher state machine (src/frontend/src/components/dashboard/PricesFetcher.tsx and its dual-mode variant) -/

/-- `PricesPreviewResponse` from api/prices.ts. -/
structure PricesPreviewResponse where
  command : String
  filename : String
  content : String
  matchedLines : Int
deriving DecidableEq

/-- The `State` of the PricesFetcher component; `isOpen` embeds the source
field `open`, which is a reserved word in Lean. -/
structure State where
  isOpen : Bool
  preview : Option PricesPreviewResponse
  error : Option String
  isLoading : Bool
  isSaving : Bool
  savedFilename : Option String
deriving DecidableEq

/-- The reducer `FetcherAction` type. -/
inductive FetcherAction where
  | FETCH_START
  | FETCH_SUCCESS (payload : PricesPreviewResponse)
  | FETCH_ERROR (payload : String)
  | SAVE_START
  | SAVE_SUCCESS (payload : String)
  | SAVE_ERROR (payload : String)
  | CLOSE_DIALOG
deriving DecidableEq

/-- The `initialState` constant. -/
def initialState : State :=
  { isOpen := false, preview := none, error := none,
    isLoading := false, isSaving := false, savedFilename := none }

/-- The PricesFetcher `reducer` (identical in both component variants). -/
def reducer (state : State) (action : FetcherAction) : State :=
  match action with
  | .FETCH_START =>
    { state with isOpen := true, preview := none, savedFilename := none,
                 error := none, isLoading := true }
  | .FETCH_SUCCESS payload =>
    { state with preview := some payload, isLoading := false }
  | .FETCH_ERROR payload =>
    { state with error := some payload, isLoading := false }
  | .SAVE_START =>
    { state with error := none, isSaving := true }
  | .SAVE_SUCCESS payload =>
    { state with savedFilename := some payload, isSaving := false }
  | .SAVE_ERROR payload =>
    { state with error := some payload, isSaving := false }
  | .CLOSE_DIALOG =>
    { state with isOpen := false }

/-- Dispatch a list of actions in order through the reducer. -/
def applyActions (s : State) (acts : List FetcherAction) : State :=
  acts.foldl reducer s

/-- `PricesFetcherProps`: the day-mode / range-mode discriminated union. -/
inductive PricesFetcherProps where
  | day (date : String) (base : Option String) (disabled : Bool)
  | range (currency : Option String) (startDate : String) (endDate : String) (disabled : Bool)

/-- A network request issued by the component; constructors mirror the four
api/prices.ts endpoints. -/
inductive ApiCall where
  | previewDay (date : String) (base : String)
  | previewRange (currency startDate endDate : String)
  | saveDay (date content : String)
  | saveRange (currency startDate endDate content : String)
deriving DecidableEq

/-- Whether a call hits one of the two mutating save endpoints. -/
def ApiCall.isSave : ApiCall → Bool
  | .saveDay _ _ => true
  | .saveRange _ _ _ _ => true
  | _ => false

/-- The `onFetch` handler of the dual-mode PricesFetcher: the network calls
it issues and the actions it dispatches, given the preview request outcome. -/
def onFetch (props : PricesFetcherProps) (net : Except String PricesPreviewResponse) :
    List ApiCall × List FetcherAction :=
  match props with
  | .range currency startDate endDate _ =>
    if !otruthy currency || !truthy startDate || !truthy endDate then ([], [])
    else
      ([ApiCall.previewRange (currency.getD "") startDate endDate],
       FetcherAction.FETCH_START ::
         (match net with
          | .ok r => [FetcherAction.FETCH_SUCCESS r]
          | .error e => [FetcherAction.FETCH_ERROR e]))
  | .day date base _ =>
    if !truthy date || !otruthy base then ([], [])
    else
      ([ApiCall.previewDay date (base.getD "")],
       FetcherAction.FETCH_START ::
         (match net with
          | .ok r => [FetcherAction.FETCH_SUCCESS r]
          | .error e => [FetcherAction.FETCH_ERROR e]))

/-- The `onSave` handler of the dual-mode PricesFetcher: returns immediately
when no preview is present; otherwise dispatches SAVE_START, issues the save
call (unless a required range field is falsy), and dispatches the outcome. -/
def onSave (props : PricesFetcherProps) (s : State) (net : Except String String) :
    List ApiCall × List FetcherAction :=
  match s.preview with
  | none => ([], [])
  | some p =>
    match props with
    | .range currency startDate endDate _ =>
      if !otruthy currency || !truthy startDate || !truthy endDate then
        ([], [FetcherAction.SAVE_START])
      else
        ([ApiCall.saveRange (currency.getD "") startDate endDate p.content],
         FetcherAction.SAVE_START ::
           (match net with
            | .ok f => [FetcherAction.SAVE_SUCCESS f]
            | .error e => [FetcherAction.SAVE_ERROR e]))
    | .day date _ _ =>
      if !truthy date then ([], [FetcherAction.SAVE_START])
      else
        ([ApiCall.saveDay date p.content],
         FetcherAction.SAVE_START ::
           (match net with
            | .ok f => [FetcherAction.SAVE_SUCCESS f]
            | .error e => [FetcherAction.SAVE_ERROR e]))

/-- The Save button disabled condition:
`!preview || !preview.content.trim() || isLoading || isSaving || Boolean(savedFilename)`. -/
def saveDisabled (s : State) : Bool :=
  s.preview.isNone ||
    ((s.preview.map (fun p => !truthy p.content.trim)).getD true) ||
    s.isLoading || s.isSaving || s.savedFilename.isSome

/-! ## Availability heatmap (AvailabilityTab source file) -/

/-- `AvailabilityDay` from api/availability.ts, with the ISO date as a serial
day number. -/
structure AvailabilityDay where
  d : Nat
  n : Int
  directives : List String
deriving DecidableEq

/-- `HeatmapDatum` from the AvailabilityTab source: `value` is the
(date, count) pair handed to ECharts. -/
structure HeatmapDatum where
  value : Nat × Int
  directives : List String
deriving DecidableEq

/-- Lookup in the `byDate` JavaScript `Map` built from the day list: the last
inserted entry for a key wins, so search the reversed list. -/
def byDateGet (days : List AvailabilityDay) (key : Nat) : Option AvailabilityDay :=
  days.reverse.find? (fun day => day.d = key)

/-- The date-iteration loop of `getAllDatesInRange` on an explicit
`[start, end]` range: every serial day from `cur` through `stop`, ascending.
With `maxYears` undefined, `clampRangeToLatestYears` and
`expandCalendarRange` return the explicit range unchanged, so this loop is
the whole of `getAllDatesInRange` for the claims below. -/
def datesFrom (cur stop : Nat) : List Nat :=
  if cur ≤ stop then cur :: datesFrom (cur + 1) stop else []
termination_by stop + 1 - cur

/-- `buildAvailabilityHeatmapData` on an explicit unclamped range: one datum
per date of the range, carrying the count of the matching day and directives, or
count 0 and no directives when the date has no entry. -/
def buildAvailabilityHeatmapData (days : List AvailabilityDay) (start stop : Nat) :
    List HeatmapDatum :=
  (datesFrom start stop).map (fun d =>
    match byDateGet days d with
    | some day => { value := (d, day.n), directives := day.directives }
    | none => { value := (d, 0), directives := [] })

/-! ## URL builders (api/prices.ts, api/availability.ts, api/series.ts, api/config.ts) -/

/-- One step of `withLocationParams`: `if (value !== undefined) params.set(key, value)`. -/
def setIfSome (ps : Params) (k : String) (v : Option String) : Params :=
  match v with
  | some s => setParam ps k s
  | none => ps

/-- `withLocationParams` from api/prices.ts: start from the current
`location.search` and set every defined extra parameter in order. -/
def withLocationParams (loc : Params) (extra : List (String × Option String)) : Params :=
  extra.foldl (fun ps kv => setIfSome ps kv.1 kv.2) loc

/-- The query parameters of a `fetchPricesPreview(date, base)` request. -/
def fetchPricesPreviewParams (loc : Params) (date : String) (base : Option String) : Params :=
  withLocationParams loc [("date", some date), ("base", base)]

/-- The query parameters of a `fetchPricesRangePreview(currency, startDate, endDate)` request. -/
def fetchPricesRangePreviewParams (loc : Params) (currency startDate endDate : String) : Params :=
  withLocationParams loc
    [("currency", some currency), ("startDate", some startDate), ("endDate", some endDate)]

/-- Conditional parameter set used by useAvailability and useSeries:
`if (x) params.set(k, x)`. -/
def setIfTruthy (ps : Params) (k : String) (v : Option String) : Params :=
  match v with
  | some s => if truthy s then setParam ps k s else ps
  | none => ps

/-- The query parameters of the `availability` request built by
`useAvailability(base, currency)`. -/
def useAvailabilityParams (loc : Params) (base currency : Option String) : Params :=
  setIfTruthy (setIfTruthy loc "base" base) "currency" currency

/-- The query parameters of the `series` request built by
`useSeries(currency, base)`. -/
def useSeriesParams (loc : Params) (currency base : Option String) : Params :=
  setIfTruthy (setIfTruthy loc "currency" currency) "base" base

/-- The query parameters of the `config` request built by `useConfig`:
exactly the current location parameters. -/
def useConfigParams (loc : Params) : Params := loc

/-- AvailabilityTab passes `undefined` for both useAvailability filters,
whatever its `currency` and `base` props hold. -/
def availabilityTabParams (loc : Params) (currency base : Option String) : Params :=
  let _ := currency
  let _ := base
  useAvailabilityParams loc none none

/-- The full availability URL issued by AvailabilityTab. -/
def availabilityTabUrl (loc : Params) (currency base : Option String) : String :=
  "availability?" ++ paramsToString (availabilityTabParams loc currency base)

/-! ## RateTab and useSeries gating (RateTab source file, api/series.ts) -/

/-- `SeriesPoint` from api/series.ts. -/
structure SeriesPoint where
  d : String
  v : Rat
deriving DecidableEq

/-- `SeriesMarker` from api/series.ts. -/
structure SeriesMarker where
  d : String
  v : Rat
  color : Option String
  comment : Option String
deriving DecidableEq

/-- `SeriesResponse` from api/series.ts. -/
structure SeriesResponse where
  currency : String
  base : String
  inverted : Bool
  points : List SeriesPoint
  markers : Option (List SeriesMarker)
deriving DecidableEq

/-- `useSeries` query gating: `enabled: Boolean(currency && base)`. -/
def useSeriesEnabled (currency base : Option String) : Bool :=
  otruthy currency && otruthy base

/-- The `series` request issued by `useSeries`: none when the query is
disabled, otherwise the built query parameters. -/
def useSeriesRequest (loc : Params) (currency base : Option String) : Option Params :=
  if useSeriesEnabled currency base then some (useSeriesParams loc currency base) else none

/-- RateTab: `canQuery = Boolean(currency && base && currency !== base)`. -/
def canQuery (currency base : Option String) : Bool :=
  otruthy currency && otruthy base && !(currency == base)

/-- The series request issued by RateTab: it passes `undefined` to useSeries
for both arguments unless `canQuery` holds. -/
def rateTabSeriesRequest (loc : Params) (currency base : Option String) : Option Params :=
  useSeriesRequest loc
    (if canQuery currency base then currency else none)
    (if canQuery currency base then base else none)

/-- RateTab marker list: `series?.markers ?? EMPTY_MARKERS`. -/
def rateTabMarkers (series : Option SeriesResponse) : List SeriesMarker :=
  (series.bind (fun s => s.markers)).getD []

/-- The x-axis categories of the rate chart:
`Array.from(new Set([...pts.map(d), ...markers.map(d)])).sort()`. -/
def rateChartX (series : Option SeriesResponse) : List String :=
  let pts := (series.map (fun s => s.points)).getD []
  (((pts.map (fun p => p.d)) ++ ((rateTabMarkers series).map (fun m => m.d))).eraseDups).mergeSort
    (fun a b => a ≤ b)

/-! ## MarkersList example directive (MarkersList.tsx) -/

/-- The example marker directive string built by MarkersList from the current
`currency` and `base` props. -/
def markerExample (currency base : Option String) : String :=
  let exampleBase := base.getD "USD"
  let ec0 := currency.getD (if exampleBase ≠ "EUR" then "EUR" else "GBP")
  let exampleCurrency := if ec0 = exampleBase then (if exampleBase ≠ "EUR" then "EUR" else "GBP") else ec0
  "2025-10-01 custom \"currency-marker\" \"" ++ exampleCurrency ++ "\" \"" ++ exampleBase ++
    "\" 1.12 \"green\" \"Comment\""

/-- Modelled from the spec: the documented bit-exact marker directive shape
`<date> custom "currency-marker" "<currency>" "<base>" <value> "<color>" "<comment>"`. -/
def markerDirectiveShape (date currency base value color comment : String) : String :=
  date ++ " custom \"currency-marker\" \"" ++ currency ++ "\" \"" ++ base ++
    "\" " ++ value ++ " \"" ++ color ++ "\" \"" ++ comment ++ "\""

/-! ## Dashboard parameter swap (Dashboard.tsx) -/

/-- JavaScript `toUpperCase`, modelled characterwise (the kernel-evaluable
equivalent of `String.toUpper`). -/
def jsToUpperCase (s : String) : String := ⟨s.data.map Char.toUpper⟩

/-- Dashboard reading of a currency parameter:
`(searchParams.get(k) || undefined)?.toUpperCase()`. -/
def dashParam (raw : Option String) : Option String :=
  match raw with
  | none => none
  | some s => if s.isEmpty then none else some (jsToUpperCase s)

/-- `swapCurrencyAndBase` from Dashboard.tsx: identity when either derived
value is undefined, otherwise set `currency` to the (uppercased) base value
and `base` to the (uppercased) currency value. -/
def swapCurrencyAndBase (p : Params) : Params :=
  match dashParam (getParam p "currency"), dashParam (getParam p "base") with
  | some currency, some base => setParam (setParam p "currency" base) "base" currency
  | _, _ => p

/-! ## Lemmas about the URLSearchParams model -/

theorem getParam_filter_ne (ps : Params) (k k2 : String) (h : k2 ≠ k) :
    getParam (ps.filter (fun p => p.1 ≠ k)) k2 = getParam ps k2 := by
  induction ps with
  | nil => rfl
  | cons hd tl ih =>
    obtain ⟨k0, v0⟩ := hd
    by_cases h0 : k0 = k
    · subst h0
      unfold getParam at ih ⊢
      rw [List.filter_cons_of_neg (by simp)]
      rw [List.find?_cons_of_neg _ (by simp [Ne.symm h])]
      exact ih
    · by_cases h2 : k0 = k2
      · subst h2
        unfold getParam
        rw [List.filter_cons_of_pos (by simp [h0])]
        rw [List.find?_cons_of_pos _ (by simp), List.find?_cons_of_pos _ (by simp)]
      · unfold getParam at ih ⊢
        rw [List.filter_cons_of_pos (by simp [h0])]
        rw [List.find?_cons_of_neg _ (by simp [h2]), List.find?_cons_of_neg _ (by simp [h2])]
        exact ih

theorem getParam_setParam_self (ps : Params) (k v : String) :
    getParam (setParam ps k v) k = some v := by
  induction ps with
  | nil => simp [setParam, getParam]
  | cons hd tl ih =>
    obtain ⟨k0, v0⟩ := hd
    by_cases h : k0 = k
    · simp [setParam, h, getParam, List.find?]
    · simp only [setParam, if_neg h, getParam, List.find?, decide_eq_true_eq]
      simp only [getParam] at ih
      simp [h, ih]

theorem getParam_setParam_ne (ps : Params) (k v k2 : String) (h : k2 ≠ k) :
    getParam (setParam ps k v) k2 = getParam ps k2 := by
  induction ps with
  | nil => simp [setParam, getParam, Ne.symm h]
  | cons hd tl ih =>
    obtain ⟨k0, v0⟩ := hd
    by_cases h0 : k0 = k
    · subst h0
      have hs : setParam ((k0, v0) :: tl) k0 v = (k0, v) :: tl.filter (fun p => p.1 ≠ k0) := by
        simp [setParam]
      rw [hs]
      unfold getParam
      rw [List.find?_cons_of_neg _ (by simp [Ne.symm h]),
          List.find?_cons_of_neg _ (by simp [Ne.symm h])]
      have hf := getParam_filter_ne tl k0 k2 h
      unfold getParam at hf
      exact hf
    · simp only [setParam, if_neg h0]
      unfold getParam at ih ⊢
      by_cases h2 : k0 = k2
      · rw [List.find?_cons_of_pos _ (by simp [h2]),
            List.find?_cons_of_pos _ (by simp [h2])]
      · rw [List.find?_cons_of_neg _ (by simp [h2]),
            List.find?_cons_of_neg _ (by simp [h2])]
        exact ih

/-! ## Claim theorems -/

/-- C2: `fetchJSON` and `postJSON` return the `data` field of the envelope iff the
HTTP status is 2xx and the `success` field of the envelope is true; in every
other case they throw an error whose message is the `error` string when
present and the fixed fallback "API error" otherwise, and the two helpers
treat every response identically. -/
theorem api_envelope_error_uniform {T : Type} (status : Nat) (json : APIResponse T) :
    (fetchJSON status json = Except.ok json.data ↔
       respOk status = true ∧ json.success = true) ∧
    (fetchJSON status json = Except.error (json.error.getD "API error") ↔
       ¬(respOk status = true ∧ json.success = true)) ∧
    postJSON status json = fetchJSON status json := by
  unfold fetchJSON postJSON
  by_cases h1 : respOk status <;> by_cases h2 : json.success <;> simp [h1, h2]

/-- Witness for C2 at a concrete non-2xx response with `success = true`. -/
theorem api_envelope_error_uniform_witness :
    postJSON 500 ⟨true, some "boom", (0 : Int)⟩ = fetchJSON 500 ⟨true, some "boom", (0 : Int)⟩ ∧
    fetchJSON 500 ⟨true, some "boom", (0 : Int)⟩ = Except.error "boom" :=
  ⟨(api_envelope_error_uniform 500 ⟨true, some "boom", (0 : Int)⟩).2.2,
   (api_envelope_error_uniform 500 ⟨true, some "boom", (0 : Int)⟩).2.1.mpr (by decide)⟩

/-- C4: the availability request issued by AvailabilityTab is independent of
the selected currency pair: the built query parameters are exactly the host
location parameters (no pair filter is added), and the resulting URL is
identical for any two prop values. -/
theorem availability_request_pair_independent (loc : Params)
    (c1 b1 c2 b2 : Option String) :
    availabilityTabParams loc c1 b1 = loc ∧
    availabilityTabUrl loc c1 b1 = availabilityTabUrl loc c2 b2 :=
  ⟨rfl, rfl⟩

/-- C10: the CLOSE_DIALOG action sets `open` to false and leaves every other
state field — preview, error, isLoading, isSaving, savedFilename —
unchanged. -/
theorem close_dialog_frame (s : State) :
    reducer s FetcherAction.CLOSE_DIALOG =
      { isOpen := false, preview := s.preview, error := s.error,
        isLoading := s.isLoading, isSaving := s.isSaving,
        savedFilename := s.savedFilename } :=
  rfl

/-- C3: `onFetch` issues only preview calls; `onSave` performs no network
call and dispatches nothing when the state has no preview; every call issued
by `onSave` is a save call; and the Save button is disabled whenever there is
no preview, the preview content is blank, a request is in flight, or a save
already succeeded. -/
theorem save_gated_on_preview :
    (∀ props net call, call ∈ (onFetch props net).1 → call.isSave = false) ∧
    (∀ props s net, s.preview = none → onSave props s net = ([], [])) ∧
    (∀ props s net call, call ∈ (onSave props s net).1 → call.isSave = true) ∧
    (∀ s : State,
       s.preview = none ∨
         (∃ p, s.preview = some p ∧ truthy p.content.trim = false) ∨
         s.isLoading = true ∨ s.isSaving = true ∨ s.savedFilename ≠ none →
       saveDisabled s = true) := by
  refine ⟨?_, ?_, ?_, ?_⟩
  · intro props net call hmem
    cases props with
    | range currency startDate endDate d =>
      by_cases hg : (!otruthy currency || !truthy startDate || !truthy endDate) = true
      · simp [onFetch, hg] at hmem
      · simp [onFetch, hg] at hmem
        simp [hmem, ApiCall.isSave]
    | day date base d =>
      by_cases hg : (!truthy date || !otruthy base) = true
      · simp [onFetch, hg] at hmem
      · simp [onFetch, hg] at hmem
        simp [hmem, ApiCall.isSave]
  · intro props s net hp
    unfold onSave
    rw [hp]
  · intro props s net call hmem
    rcases hp : s.preview with _ | p
    · simp [onSave, hp] at hmem
    · cases props with
      | range currency startDate endDate d =>
        by_cases hg : (!otruthy currency || !truthy startDate || !truthy endDate) = true
        · simp [onSave, hp, hg] at hmem
        · simp [onSave, hp, hg] at hmem
          simp [hmem, ApiCall.isSave]
      | day date base d =>
        by_cases hg : (!truthy date) = true
        · simp [onSave, hp, hg] at hmem
        · simp [onSave, hp, hg] at hmem
          simp [hmem, ApiCall.isSave]
  · intro s h
    rcases h with hp | ⟨p, hp, hc⟩ | hl | hs | hf
    · simp [saveDisabled, hp]
    · simp [saveDisabled, hp, hc]
    · simp [saveDisabled, hl]
    · simp [saveDisabled, hs]
    · rcases hv : s.savedFilename with _ | f
      · exact absurd hv hf
      · simp [saveDisabled, hv]

/-- Witness for C3: with no preview, `onSave` is a no-op and the Save button
is disabled. -/
theorem save_gated_on_preview_witness :
    onSave (PricesFetcherProps.day "2024-01-02" (some "USD") false) initialState
        (Except.error "x") = ([], []) ∧
    saveDisabled initialState = true :=
  ⟨save_gated_on_preview.2.1 (PricesFetcherProps.day "2024-01-02" (some "USD") false)
      initialState (Except.error "x") rfl,
   save_gated_on_preview.2.2.2 initialState (Or.inl rfl)⟩

/-- C6: the SAVE_ERROR action records the error and clears isSaving while
leaving every other field (savedFilename included) unchanged; a rejected save
request leaves the state with the stringified error recorded, isSaving
cleared and savedFilename unchanged; and a non-null savedFilename can only
appear through a SAVE_SUCCESS action carrying the returned filename. -/
theorem save_error_keeps_saved_filename :
    (∀ s e, reducer s (FetcherAction.SAVE_ERROR e) =
       { s with error := some e, isSaving := false }) ∧
    (∀ props s e, (onSave props s (Except.error e)).1 ≠ [] →
       applyActions s (onSave props s (Except.error e)).2 =
         { s with error := some e, isSaving := false }) ∧
    (∀ s a, (reducer s a).savedFilename ≠ none →
       (reducer s a).savedFilename = s.savedFilename ∨
       ∃ f, a = FetcherAction.SAVE_SUCCESS f ∧
            (reducer s a).savedFilename = some f) := by
  refine ⟨?_, ?_, ?_⟩
  · intro s e
    rfl
  · intro props s e hne
    rcases hp : s.preview with _ | p
    · simp [onSave, hp] at hne
    · cases props with
      | range currency startDate endDate d =>
        by_cases hg : (!otruthy currency || !truthy startDate || !truthy endDate) = true
        · simp [onSave, hp, hg] at hne
        · simp [onSave, hp, hg, applyActions, reducer]
      | day date base d =>
        by_cases hg : (!truthy date) = true
        · simp [onSave, hp, hg] at hne
        · simp [onSave, hp, hg, applyActions, reducer]
  · intro s a h
    cases a with
    | SAVE_SUCCESS f => exact Or.inr ⟨f, rfl, rfl⟩
    | FETCH_START => exact absurd rfl h
    | FETCH_SUCCESS p => exact Or.inl rfl
    | FETCH_ERROR e => exact Or.inl rfl
    | SAVE_START => exact Or.inl rfl
    | SAVE_ERROR e => exact Or.inl rfl
    | CLOSE_DIALOG => exact Or.inl rfl

/-- Witness for C6: a rejected day-mode save on a state holding a preview
records the error, clears isSaving and leaves savedFilename null. -/
theorem save_error_keeps_saved_filename_witness :
    applyActions { initialState with preview := some ⟨"cmd", "f.bean", "2024-01-02 price X 1 Y", 1⟩ }
        (onSave (PricesFetcherProps.day "2024-01-02" (some "USD") false)
          { initialState with preview := some ⟨"cmd", "f.bean", "2024-01-02 price X 1 Y", 1⟩ }
          (Except.error "boom")).2 =
      { { initialState with preview := some ⟨"cmd", "f.bean", "2024-01-02 price X 1 Y", 1⟩ } with
          error := some "boom", isSaving := false } :=
  save_error_keeps_saved_filename.2.1
    (PricesFetcherProps.day "2024-01-02" (some "USD") false)
    { initialState with preview := some ⟨"cmd", "f.bean", "2024-01-02 price X 1 Y", 1⟩ }
    "boom" (by decide)

theorem getParam_setIfSome_ne (ps : Params) (k2 : String) (v : Option String)
    (k : String) (h : k ≠ k2) :
    getParam (setIfSome ps k2 v) k = getParam ps k := by
  cases v with
  | none => rfl
  | some s => exact getParam_setParam_ne ps k2 s k h

theorem getParam_setIfTruthy_ne (ps : Params) (k2 : String) (v : Option String)
    (k : String) (h : k ≠ k2) :
    getParam (setIfTruthy ps k2 v) k = getParam ps k := by
  cases v with
  | none => rfl
  | some s =>
    show getParam (if truthy s = true then setParam ps k2 s else ps) k = getParam ps k
    by_cases ht : truthy s
    · rw [if_pos ht]
      exact getParam_setParam_ne ps k2 s k h
    · rw [if_neg ht]

/-- C7: every request URL built by the API helpers preserves the
pre-existing host page query parameters: for any key other than the request-specific
keys date, base, currency, startDate, endDate, the parameters built by
fetchPricesPreview, fetchPricesRangePreview, useAvailability, useSeries and
useConfig agree with the current location parameters. -/
theorem url_builders_preserve_host_filters (loc : Params) (k : String)
    (hkd : k ≠ "date") (hkb : k ≠ "base") (hkc : k ≠ "currency")
    (hks : k ≠ "startDate") (hke : k ≠ "endDate")
    (date startDate endDate currencyArg : String) (base currency : Option String) :
    getParam (fetchPricesPreviewParams loc date base) k = getParam loc k ∧
    getParam (fetchPricesRangePreviewParams loc currencyArg startDate endDate) k =
      getParam loc k ∧
    getParam (useAvailabilityParams loc base currency) k = getParam loc k ∧
    getParam (useSeriesParams loc currency base) k = getParam loc k ∧
    getParam (useConfigParams loc) k = getParam loc k := by
  refine ⟨?_, ?_, ?_, ?_, rfl⟩
  · show getParam (setIfSome (setIfSome loc "date" (some date)) "base" base) k = getParam loc k
    rw [getParam_setIfSome_ne _ _ _ _ hkb, getParam_setIfSome_ne _ _ _ _ hkd]
  · show getParam
        (setIfSome (setIfSome (setIfSome loc "currency" (some currencyArg))
          "startDate" (some startDate)) "endDate" (some endDate)) k = getParam loc k
    rw [getParam_setIfSome_ne _ _ _ _ hke, getParam_setIfSome_ne _ _ _ _ hks,
        getParam_setIfSome_ne _ _ _ _ hkc]
  · unfold useAvailabilityParams
    rw [getParam_setIfTruthy_ne _ _ _ _ hkc, getParam_setIfTruthy_ne _ _ _ _ hkb]
  · unfold useSeriesParams
    rw [getParam_setIfTruthy_ne _ _ _ _ hkb, getParam_setIfTruthy_ne _ _ _ _ hkc]

/-- Witness for C7 at a concrete location carrying a `time` filter. -/
theorem url_builders_preserve_host_filters_witness :
    getParam (fetchPricesPreviewParams [("time", "2024"), ("account", "Assets")]
        "2024-01-02" (some "USD")) "time" =
      getParam [("time", "2024"), ("account", "Assets")] "time" ∧
    getParam (useSeriesParams [("time", "2024"), ("account", "Assets")]
        (some "EUR") (some "USD")) "time" =
      getParam [("time", "2024"), ("account", "Assets")] "time" :=
  ⟨(url_builders_preserve_host_filters [("time", "2024"), ("account", "Assets")] "time"
      (by decide) (by decide) (by decide) (by decide) (by decide)
      "2024-01-02" "2024-01-01" "2024-01-31" "EUR" (some "USD") (some "EUR")).1,
   (url_builders_preserve_host_filters [("time", "2024"), ("account", "Assets")] "time"
      (by decide) (by decide) (by decide) (by decide) (by decide)
      "2024-01-02" "2024-01-01" "2024-01-31" "EUR" (some "USD") (some "EUR")).2.2.2.1⟩

/-- C5: whenever the selected currency equals the base (or either is
missing), RateTab issues no series request — `canQuery` is false, `useSeries`
receives undefined for both arguments and its query is disabled — and the
chart x-axis built from the absent series data is empty. -/
theorem degenerate_pair_no_series_request (loc : Params) (currency base : Option String)
    (h : currency = base ∨ otruthy currency = false ∨ otruthy base = false) :
    rateTabSeriesRequest loc currency base = none ∧ rateChartX none = [] := by
  constructor
  · have hcq : canQuery currency base = false := by
      rcases h with h | h | h
      · simp [canQuery, h]
      · simp [canQuery, h]
      · simp [canQuery, h]
    simp [rateTabSeriesRequest, hcq, useSeriesRequest, useSeriesEnabled, otruthy]
  · have he : ([] : List String).eraseDups = [] := rfl
    simp [rateChartX, rateTabMarkers, he]

/-- Witness for C5 at the degenerate pair USD/USD. -/
theorem degenerate_pair_no_series_request_witness :
    rateTabSeriesRequest [("time", "2024")] (some "USD") (some "USD") = none ∧
    rateChartX none = [] :=
  degenerate_pair_no_series_request [("time", "2024")] (some "USD") (some "USD") (Or.inl rfl)

/-- C8: for every pair of currency and base props, the example directive
string produced by MarkersList matches the documented bit-exact marker
directive shape, with the example base being the base prop
(default "USD"). -/
theorem marker_example_matches_shape (currency base : Option String) :
    ∃ cur bas,
      markerExample currency base =
        markerDirectiveShape "2025-10-01" cur bas "1.12" "green" "Comment" ∧
      bas = base.getD "USD" := by
  refine ⟨(fun eb => (fun e0 => if e0 = eb then (if eb ≠ "EUR" then "EUR" else "GBP") else e0)
      ((currency.getD (if eb ≠ "EUR" then "EUR" else "GBP")))) (base.getD "USD"),
    base.getD "USD", ?_, rfl⟩
  simp only [markerExample, markerDirectiveShape]
  simp [String.append_assoc]

theorem datesFrom_eq (n : Nat) : ∀ a b : Nat, b + 1 - a = n →
    datesFrom a b = (List.range n).map (a + ·) := by
  induction n with
  | zero =>
    intro a b hn
    have hab : ¬a ≤ b := by omega
    unfold datesFrom
    simp [hab]
  | succ m ih =>
    intro a b hn
    have hab : a ≤ b := by omega
    have h2 : b + 1 - (a + 1) = m := by omega
    unfold datesFrom
    rw [if_pos hab, ih (a + 1) b h2, List.range_succ_eq_map]
    have hsh : ∀ i : Nat, a + 1 + i = a + (i + 1) := by omega
    simp [List.map_map, Function.comp, hsh]

theorem byDateGet_eq_none (days : List AvailabilityDay) (key : Nat)
    (h : ∀ day ∈ days, day.d ≠ key) : byDateGet days key = none := by
  unfold byDateGet
  rw [List.find?_eq_none]
  intro x hx
  simp only [List.mem_reverse] at hx
  simp [h x hx]

theorem byDateGet_of_mem (days : List AvailabilityDay) (day : AvailabilityDay)
    (hnodup : (days.map (fun q => q.d)).Nodup) (hmem : day ∈ days) :
    byDateGet days day.d = some day := by
  induction days with
  | nil => cases hmem
  | cons hd tl ih =>
    unfold byDateGet
    rw [List.reverse_cons, List.find?_append]
    have hcons := hnodup
    rw [List.map_cons] at hcons
    obtain ⟨h1, h2⟩ := List.nodup_cons.mp hcons
    rcases List.mem_cons.mp hmem with heq | htl
    · subst heq
      have hnone : List.find? (fun q => q.d = day.d) tl.reverse = none := by
        rw [List.find?_eq_none]
        intro x hx
        simp only [List.mem_reverse] at hx
        have hne : x.d ≠ day.d := by
          intro hcontra
          exact h1 (hcontra ▸ List.mem_map_of_mem (fun q => q.d) hx)
        simp [hne]
      rw [hnone]
      simp [List.find?]
    · have hfound := ih h2 htl
      unfold byDateGet at hfound
      rw [hfound]
      simp

/-- C1: over an explicit date range, the heatmap data has exactly one datum
per calendar date of the range in ascending date order; a date carrying an
availability day contributes the count and directive texts of that day, and every
other date contributes count 0 and an empty directive list. -/
theorem availability_heatmap_complete (days : List AvailabilityDay) (start stop : Nat)
    (hrange : start ≤ stop) (hnodup : (days.map (fun q => q.d)).Nodup) :
    (buildAvailabilityHeatmapData days start stop).length = stop + 1 - start ∧
    (∀ i (h : i < (buildAvailabilityHeatmapData days start stop).length),
       ((buildAvailabilityHeatmapData days start stop).get ⟨i, h⟩).value.1 = start + i) ∧
    (∀ day, day ∈ days → ∀ i (h : i < (buildAvailabilityHeatmapData days start stop).length),
       start + i = day.d →
       (buildAvailabilityHeatmapData days start stop).get ⟨i, h⟩ =
         { value := (day.d, day.n), directives := day.directives }) ∧
    (∀ i (h : i < (buildAvailabilityHeatmapData days start stop).length),
       (∀ day ∈ days, day.d ≠ start + i) →
       (buildAvailabilityHeatmapData days start stop).get ⟨i, h⟩ =
         { value := (start + i, 0), directives := [] }) := by
  have hd : datesFrom start stop = (List.range (stop + 1 - start)).map (start + ·) :=
    datesFrom_eq (stop + 1 - start) start stop rfl
  refine ⟨?_, ?_, ?_, ?_⟩
  · simp [buildAvailabilityHeatmapData, hd]
  · intro i h
    simp only [buildAvailabilityHeatmapData, hd, List.get_eq_getElem, List.getElem_map,
      List.getElem_range]
    rcases hbd : byDateGet days (start + i) with _ | day <;> simp [hbd]
  · intro day hmem i h hi
    have hbd : byDateGet days day.d = some day :=
      byDateGet_of_mem days day hnodup hmem
    simp only [buildAvailabilityHeatmapData, hd, List.get_eq_getElem, List.getElem_map,
      List.getElem_range]
    simp [hi, hbd]
  · intro i h habs
    have hbd : byDateGet days (start + i) = none :=
      byDateGet_eq_none days (start + i) habs
    simp only [buildAvailabilityHeatmapData, hd, List.get_eq_getElem, List.getElem_map,
      List.getElem_range]
    simp [hbd]

/-- Witness for C1: the documented example — the range 2024-01-01..2024-01-03
(serial days 19723..19725) with one availability day on 2024-01-02 carrying
three directives — yields exactly three data with counts 0, 3, 0. -/
theorem availability_heatmap_complete_witness :
    19723 ≤ 19725 ∧
    (buildAvailabilityHeatmapData [⟨19724, 3, ["d1", "d2", "d3"]⟩] 19723 19725).length = 3 ∧
    buildAvailabilityHeatmapData [⟨19724, 3, ["d1", "d2", "d3"]⟩] 19723 19725 =
      [{ value := (19723, 0), directives := [] },
       { value := (19724, 3), directives := ["d1", "d2", "d3"] },
       { value := (19725, 0), directives := [] }] := by
  refine ⟨by decide, ?_, ?_⟩
  · have h := (availability_heatmap_complete [⟨19724, 3, ["d1", "d2", "d3"]⟩] 19723 19725
      (by decide) (by decide)).1
    simpa using h
  · unfold buildAvailabilityHeatmapData
    rw [datesFrom_eq 3 19723 19725 (by decide)]
    decide

/-- Counterexample to C9 as stated: on search params whose stored values are
not already uppercase, one application of `swapCurrencyAndBase` writes the
uppercased values, so applying it twice does not restore the original
params and a single application does not exchange exactly the stored
values. -/
theorem swap_currency_base_not_involutive :
    swapCurrencyAndBase (swapCurrencyAndBase [("currency", "usd"), ("base", "eur")]) ≠
      [("currency", "usd"), ("base", "eur")] := by
  decide

theorem setParam_eq_map (ps : Params) (k v : String) (h : countKey ps k = 1) :
    setParam ps k v = ps.map (fun q => if q.1 = k then (k, v) else q) := by
  induction ps with
  | nil => simp [countKey] at h
  | cons hd tl ih =>
    obtain ⟨k0, v0⟩ := hd
    by_cases h0 : k0 = k
    · subst h0
      have htl0 : countKey tl k0 = 0 := by
        unfold countKey at h ⊢
        rw [List.filter_cons_of_pos (by simp)] at h
        simpa using h
      have hnotl : ∀ x ∈ tl, x.1 ≠ k0 := by
        intro x hx hc
        have hxin : x ∈ tl.filter (fun p => p.1 = k0) :=
          List.mem_filter.mpr ⟨hx, by simp [hc]⟩
        unfold countKey at htl0
        rw [List.length_eq_zero] at htl0
        rw [htl0] at hxin
        cases hxin
      have hfil : tl.filter (fun p => p.1 ≠ k0) = tl :=
        List.filter_eq_self.mpr (fun x hx => by simp [hnotl x hx])
      have hmap : tl.map (fun q => if q.1 = k0 then (k0, v) else q) = tl := by
        rw [show tl.map (fun q => if q.1 = k0 then (k0, v) else q) = tl.map id from
          List.map_congr_left (fun x hx => by simp [hnotl x hx]), List.map_id]
      have hs : setParam ((k0, v0) :: tl) k0 v = (k0, v) :: tl.filter (fun p => p.1 ≠ k0) := by
        simp [setParam]
      rw [hs, hfil, List.map_cons]
      simp [hmap]
    · have htl : countKey tl k = 1 := by
        unfold countKey at h ⊢
        rw [List.filter_cons_of_neg (by simp [h0])] at h
        exact h
      have hs : setParam ((k0, v0) :: tl) k v = (k0, v0) :: setParam tl k v := by
        simp [setParam, h0]
      rw [hs, List.map_cons, ih htl]
      simp [h0]

theorem countKey_map (ps : Params) (f : String × String → String × String)
    (hf : ∀ q, (f q).1 = q.1) (k : String) :
    countKey (ps.map f) k = countKey ps k := by
  unfold countKey
  rw [List.filter_map, List.length_map]
  congr 1
  apply List.filter_congr
  intro x hx
  simp [Function.comp, hf x]

theorem uniqueKey_pair (ps : Params) (k v : String)
    (h1 : countKey ps k = 1) (h2 : getParam ps k = some v) :
    ∀ q ∈ ps, q.1 = k → q = (k, v) := by
  induction ps with
  | nil =>
    intro q hq
    cases hq
  | cons hd tl ih =>
    obtain ⟨k0, v0⟩ := hd
    intro q hq hqk
    by_cases h0 : k0 = k
    · subst h0
      have hv : v0 = v := by
        unfold getParam at h2
        rw [List.find?_cons_of_pos _ (by simp)] at h2
        simpa using h2
      have htl0 : countKey tl k0 = 0 := by
        unfold countKey at h1 ⊢
        rw [List.filter_cons_of_pos (by simp)] at h1
        simpa using h1
      rcases List.mem_cons.mp hq with hqe | hqtl
      · rw [hqe, hv]
      · exfalso
        have hxin : q ∈ tl.filter (fun p => p.1 = k0) :=
          List.mem_filter.mpr ⟨hqtl, by simp [hqk]⟩
        unfold countKey at htl0
        rw [List.length_eq_zero] at htl0
        rw [htl0] at hxin
        cases hxin
    · rcases List.mem_cons.mp hq with hqe | hqtl
      · exfalso
        apply h0
        rw [hqe] at hqk
        exact hqk
      · have h1t : countKey tl k = 1 := by
          unfold countKey at h1 ⊢
          rw [List.filter_cons_of_neg (by simp [h0])] at h1
          exact h1
        have h2t : getParam tl k = some v := by
          unfold getParam at h2 ⊢
          rw [List.find?_cons_of_neg _ (by simp [h0])] at h2
          exact h2
        exact ih h1t h2t q hqtl hqk

/-- C9 (amended): on search params in which `currency` and `base` each occur
exactly once with non-empty values already in uppercase form,
`swapCurrencyAndBase` exchanges exactly the two values, leaves every other
query parameter unchanged, and applying it twice restores the original
params; when either derived value is missing it is the identity. -/
theorem swap_currency_base_involution_amended (p : Params) (c b : String)
    (hgc : getParam p "currency" = some c) (hgb : getParam p "base" = some b)
    (hc1 : countKey p "currency" = 1) (hb1 : countKey p "base" = 1)
    (hcne : c ≠ "") (hbne : b ≠ "")
    (hcu : jsToUpperCase c = c) (hbu : jsToUpperCase b = b) :
    getParam (swapCurrencyAndBase p) "currency" = some b ∧
    getParam (swapCurrencyAndBase p) "base" = some c ∧
    (∀ k, k ≠ "currency" → k ≠ "base" →
       getParam (swapCurrencyAndBase p) k = getParam p k) ∧
    swapCurrencyAndBase (swapCurrencyAndBase p) = p ∧
    (∀ q : Params,
       dashParam (getParam q "currency") = none ∨ dashParam (getParam q "base") = none →
       swapCurrencyAndBase q = q) := by
  have hCB : ("currency" : String) ≠ "base" := by decide
  have hBC : ("base" : String) ≠ "currency" := by decide
  have hce : c.isEmpty = false := by
    by_cases hc : c.isEmpty
    · exact absurd ((String.isEmpty_iff c).mp hc) hcne
    · simpa using hc
  have hbe : b.isEmpty = false := by
    by_cases hb : b.isEmpty
    · exact absurd ((String.isEmpty_iff b).mp hb) hbne
    · simpa using hb
  have hdc : dashParam (some c) = some c := by simp [dashParam, hce, hcu]
  have hdb : dashParam (some b) = some b := by simp [dashParam, hbe, hbu]
  have hsdef : ∀ q : Params, swapCurrencyAndBase q =
      (match dashParam (getParam q "currency"), dashParam (getParam q "base") with
       | some currency, some base => setParam (setParam q "currency" base) "base" currency
       | _, _ => q) :=
    fun q => rfl
  have hswap : swapCurrencyAndBase p = setParam (setParam p "currency" b) "base" c := by
    rw [hsdef p, hgc, hgb, hdc, hdb]
  have g1 : getParam (swapCurrencyAndBase p) "currency" = some b := by
    rw [hswap, getParam_setParam_ne _ _ _ _ hCB, getParam_setParam_self]
  have g2 : getParam (swapCurrencyAndBase p) "base" = some c := by
    rw [hswap, getParam_setParam_self]
  refine ⟨g1, g2, ?_, ?_, ?_⟩
  · intro k hk1 hk2
    rw [hswap, getParam_setParam_ne _ _ _ _ hk2, getParam_setParam_ne _ _ _ _ hk1]
  · have hkey1 : ∀ q : String × String,
        ((fun q => if q.1 = "currency" then (("currency" : String), b) else q) q).1 = q.1 := by
      intro q
      by_cases h : q.1 = "currency" <;> simp [h]
    have hkey2 : ∀ q : String × String,
        ((fun q => if q.1 = "base" then (("base" : String), c) else q) q).1 = q.1 := by
      intro q
      by_cases h : q.1 = "base" <;> simp [h]
    have hkey3 : ∀ q : String × String,
        ((fun q => if q.1 = "currency" then (("currency" : String), c) else q) q).1 = q.1 := by
      intro q
      by_cases h : q.1 = "currency" <;> simp [h]
    have hm1 : setParam p "currency" b =
        p.map (fun q => if q.1 = "currency" then ("currency", b) else q) :=
      setParam_eq_map p "currency" b hc1
    have hcnt2 : countKey
        (p.map (fun q => if q.1 = "currency" then ("currency", b) else q)) "base" = 1 := by
      rw [countKey_map _ _ hkey1]
      exact hb1
    have hm2 : swapCurrencyAndBase p =
        (p.map (fun q => if q.1 = "currency" then ("currency", b) else q)).map
          (fun q => if q.1 = "base" then ("base", c) else q) := by
      rw [hswap, hm1, setParam_eq_map _ _ _ hcnt2]
    have hcnt3 : countKey (swapCurrencyAndBase p) "currency" = 1 := by
      rw [hm2, countKey_map _ _ hkey2, countKey_map _ _ hkey1]
      exact hc1
    have hswap2 : swapCurrencyAndBase (swapCurrencyAndBase p) =
        setParam (setParam (swapCurrencyAndBase p) "currency" c) "base" b := by
      rw [hsdef (swapCurrencyAndBase p), g1, g2, hdc, hdb]
    have hm3 : setParam (swapCurrencyAndBase p) "currency" c =
        (swapCurrencyAndBase p).map
          (fun q => if q.1 = "currency" then ("currency", c) else q) :=
      setParam_eq_map _ _ _ hcnt3
    have hcnt4 : countKey ((swapCurrencyAndBase p).map
        (fun q => if q.1 = "currency" then ("currency", c) else q)) "base" = 1 := by
      rw [countKey_map _ _ hkey3, hm2, countKey_map _ _ hkey2, countKey_map _ _ hkey1]
      exact hb1
    have hm4 : swapCurrencyAndBase (swapCurrencyAndBase p) =
        (((p.map (fun q => if q.1 = "currency" then ("currency", b) else q)).map
            (fun q => if q.1 = "base" then ("base", c) else q)).map
          (fun q => if q.1 = "currency" then ("currency", c) else q)).map
          (fun q => if q.1 = "base" then ("base", b) else q) := by
      rw [hswap2, hm3, setParam_eq_map _ _ _ hcnt4, hm2]
    rw [hm4, List.map_map, List.map_map, List.map_map]
    have hmapid : ∀ F : String × String → String × String,
        (∀ x ∈ p, F x = x) → p.map F = p := by
      intro F hF
      have hcg := List.map_congr_left hF
      simpa using hcg
    apply hmapid
    intro x hx
    simp only [Function.comp_apply]
    by_cases hxc : x.1 = "currency"
    · have hxe : x = ("currency", c) :=
        uniqueKey_pair p "currency" c hc1 hgc x hx hxc
      rw [hxe]
      simp [hCB, hBC]
    · by_cases hxb : x.1 = "base"
      · have hxe : x = ("base", b) :=
          uniqueKey_pair p "base" b hb1 hgb x hx hxb
        rw [hxe]
        simp [hCB, hBC]
      · simp [hxc, hxb]
  · intro q hq
    rcases hq with hq | hq
    · rcases h2 : dashParam (getParam q "base") with _ | bb <;>
        simp [hsdef q, hq, h2]
    · rcases h1 : dashParam (getParam q "currency") with _ | cc <;>
        simp [hsdef q, hq, h1]

/-- Witness for the amended C9 at concrete uppercase params carrying an extra
`time` filter. -/
theorem swap_currency_base_involution_amended_witness :
    swapCurrencyAndBase (swapCurrencyAndBase
        [("currency", "USD"), ("base", "EUR"), ("time", "2024")]) =
      [("currency", "USD"), ("base", "EUR"), ("time", "2024")] ∧
    getParam (swapCurrencyAndBase [("currency", "USD"), ("base", "EUR"), ("time", "2024")])
        "currency" = some "EUR" :=
  ⟨(swap_currency_base_involution_amended
      [("currency", "USD"), ("base", "EUR"), ("time", "2024")] "USD" "EUR"
      (by decide) (by decide) (by decide) (by decide)
      (by decide) (by decide) (by decide) (by decide)).2.2.2.1,
   (swap_currency_base_involution_amended
      [("currency", "USD"), ("base", "EUR"), ("time", "2024")] "USD" "EUR"
      (by decide) (by decide) (by decide) (by decide)
      (by decide) (by decide) (by decide) (by decide)).1⟩
